import Mathlib

/-!
Verification of the mina-network-debugger core against its specification:
multistream-select negotiation layer, ring-buffer consumer, kernel probe
return-path, event parser, and user-space demultiplexer.
-/

namespace MinaDebugger

/-- Bytes are modelled as natural numbers in `[0, 256)`. -/
abbrev Bytes := List Nat

/-- Unsigned-varint decoding, one step of the loop in `unsigned_varint::decode`
(the crate used by `ll::State::poll`): accumulate 7-bit groups, stop at the
first byte with the continuation bit clear. Rejects non-minimal encodings
(last byte zero at index > 0) and overflow (more than 10 bytes for u64). -/
def decodeVarintAux : Nat → Nat → Bytes → Option (Nat × Bytes)
  | _, _, [] => none
  | i, n, b :: rest =>
    if b % 256 < 128 then
      if b % 256 = 0 ∧ 0 < i then none
      else some ((n ||| (((b % 256 % 128) <<< (7 * i)) % 2 ^ 64), rest))
    else if i = 9 then none
    else decodeVarintAux (i + 1) (n ||| (((b % 256 % 128) <<< (7 * i)) % 2 ^ 64)) rest

/-- `unsigned_varint::decode::usize` on a byte slice. -/
def decodeVarint (bytes : Bytes) : Option (Nat × Bytes) :=
  decodeVarintAux 0 0 bytes

/-- Is `b` a UTF-8 continuation byte (`10xxxxxx`)? -/
def utf8Cont (b : Nat) : Bool := 0x80 ≤ b && b ≤ 0xBF

/-- UTF-8 validity of a byte sequence, as checked by Rust `str::from_utf8`
(standard table: C2..DF + 1 continuation; E0/E1..EC/ED/EE..EF + 2; F0/F1..F3/F4 + 3,
excluding overlong forms, surrogates and code points above U+10FFFF). -/
def utf8Valid : Bytes → Bool
  | [] => true
  | b :: r =>
    if b < 0x80 then utf8Valid r
    else if 0xC2 ≤ b && b ≤ 0xDF then
      match r with
      | c1 :: r' => utf8Cont c1 && utf8Valid r'
      | [] => false
    else if b = 0xE0 then
      match r with
      | c1 :: c2 :: r' => (0xA0 ≤ c1 && c1 ≤ 0xBF) && utf8Cont c2 && utf8Valid r'
      | _ => false
    else if (0xE1 ≤ b && b ≤ 0xEC) || b = 0xEE || b = 0xEF then
      match r with
      | c1 :: c2 :: r' => utf8Cont c1 && utf8Cont c2 && utf8Valid r'
      | _ => false
    else if b = 0xED then
      match r with
      | c1 :: c2 :: r' => (0x80 ≤ c1 && c1 ≤ 0x9F) && utf8Cont c2 && utf8Valid r'
      | _ => false
    else if b = 0xF0 then
      match r with
      | c1 :: c2 :: c3 :: r' =>
        (0x90 ≤ c1 && c1 ≤ 0xBF) && utf8Cont c2 && utf8Cont c3 && utf8Valid r'
      | _ => false
    else if 0xF1 ≤ b && b ≤ 0xF3 then
      match r with
      | c1 :: c2 :: c3 :: r' => utf8Cont c1 && utf8Cont c2 && utf8Cont c3 && utf8Valid r'
      | _ => false
    else if b = 0xF4 then
      match r with
      | c1 :: c2 :: c3 :: r' =>
        (0x80 ≤ c1 && c1 ≤ 0x8F) && utf8Cont c2 && utf8Cont c3 && utf8Valid r'
      | _ => false
    else false

/-- `trim_end_matches('\n')` on the decoded string, at the byte level (on valid
UTF-8, trailing `'\n'` characters are exactly trailing `0x0A` bytes). -/
def trimNl (s : Bytes) : Bytes := (s.reverse.dropWhile (· = 10)).reverse

/-- The byte pattern `b"\ninitiator\n"` recognised by `ll::State::poll`. -/
def nlInitiator : Bytes := [10, 105, 110, 105, 116, 105, 97, 116, 111, 114, 10]

/-- The byte pattern `b"\nresponder\n"` recognised by `ll::State::poll`. -/
def nlResponder : Bytes := [10, 114, 101, 115, 112, 111, 110, 100, 101, 114, 10]

/-- One output of the low-level parser `ll::State::poll`:
`initTok`/`respTok` for the fixed 11-byte patterns, `strTok` for a
length-prefixed, UTF-8-valid message (trailing newlines trimmed), `errTok`
for a length-prefixed message that is not valid UTF-8 (carrying the raw
message, as the Rust code carries `(Utf8Error, Vec<u8>)`). -/
inductive LLRes
  | initTok
  | respTok
  | strTok (s : Bytes)
  | errTok (msg : Bytes)
deriving DecidableEq, Repr

/-- `ll::State::poll`: one parsing step on the accumulator. Returns `none`
when no complete item is available (insufficient bytes, or a varint decode
error), otherwise the item and the remaining accumulator. -/
def llPoll (acc : Bytes) : Option (LLRes × Bytes) :=
  if nlInitiator.isPrefixOf acc then some (.initTok, acc.drop 11)
  else if nlResponder.isPrefixOf acc then some (.respTok, acc.drop 11)
  else
    match decodeVarint acc with
    | none => none
    | some (length, remaining) =>
      if remaining.length < length then none
      else
        let msg := remaining.take length
        let rest := remaining.drop length
        if utf8Valid msg then some (.strTok (trimNl msg), rest)
        else some (.errTok msg, rest)

/-! String constants used by `hl::State::poll` for token classification,
as byte sequences. -/

def msMultistreamPrefix : Bytes := [47, 109, 117, 108, 116, 105, 115, 116, 114, 101, 97, 109, 47]

def msSimconPrefix : Bytes :=
  [47, 108, 105, 98, 112, 50, 112, 47, 115, 105, 109, 117, 108, 116, 97, 110,
   101, 111, 117, 115, 45, 99, 111, 110, 110, 101, 99, 116]

def msNa : Bytes := [110, 97]

def msSelectPrefix : Bytes := [115, 101, 108, 101, 99, 116]

def msInitiator : Bytes := [105, 110, 105, 116, 105, 97, 116, 111, 114]

def msResponder : Bytes := [114, 101, 115, 112, 111, 110, 100, 101, 114]

def msNoise : Bytes := [47, 110, 111, 105, 115, 101]

/-- The selection-relevant fields of the two `hl::OneDirection`s while
processing a chunk on direction `this` (the other direction's accumulator
is untouched by a poll, so it is not carried here). -/
structure SelState where
  thisSc : Bool
  thisDone : Option Bytes
  otherSc : Bool
  otherDone : Option Bytes
deriving DecidableEq, Repr

/-- The effect of a decoded string token on the selection state: the
`match` on token content inside the `while` loop of `hl::State::poll`. -/
def tokenEffect (s : Bytes) (f : SelState) : SelState :=
  if msMultistreamPrefix.isPrefixOf s then f
  else if msSimconPrefix.isPrefixOf s then { f with thisSc := true }
  else if s = msNa then
    if f.otherSc then { f with otherSc := false } else { f with otherDone := none }
  else if msSelectPrefix.isPrefixOf s then { f with thisSc := false }
  else if !f.thisSc && !f.otherSc then { f with thisDone := some s }
  else f

/-- The `while let Some(output) = this.inner.poll()` loop of
`hl::State::poll`: drains the accumulator, collecting the emitted token
byte-strings in order ( `initiator` / `responder` for the fixed patterns),
stopping at the first UTF-8 error (which is reported, the offending message
attached, and the already-consumed accumulator kept). `fuel` bounds the
number of iterations; every successful `llPoll` consumes at least one byte,
so `fuel = acc.length` is always enough. -/
def hlLoop : Nat → Bytes → SelState → List Bytes × Option Bytes × Bytes × SelState
  | 0, acc, f => ([], none, acc, f)
  | fuel + 1, acc, f =>
    match llPoll acc with
    | none => ([], none, acc, f)
    | some (.errTok msg, rest) => ([], some msg, rest, f)
    | some (.initTok, rest) =>
      let (t, e, a, f') := hlLoop fuel rest f
      (msInitiator :: t, e, a, f')
    | some (.respTok, rest) =>
      let (t, e, a, f') := hlLoop fuel rest f
      (msResponder :: t, e, a, f')
    | some (.strTok s, rest) =>
      let (t, e, a, f') := hlLoop fuel rest (tokenEffect s f)
      (s :: t, e, a, f')

/-- One direction of the high-level state `hl::OneDirection`:
the low-level accumulator, the simultaneous-connect flag, and the
proposed protocol. -/
structure Dir where
  acc : Bytes
  sc : Bool
  done : Option Bytes
deriving DecidableEq, Repr

/-- `hl::State`: both directions. -/
structure HLState where
  incoming : Dir
  outgoing : Dir
deriving DecidableEq, Repr

/-- The initial (`Default`) high-level state. -/
def hlInit : HLState := ⟨⟨[], false, none⟩, ⟨[], false, none⟩⟩

/-- `hl::Output`: tokens emitted, optional UTF-8 error (with the raw
message), optional agreement (protocol name and the bytes handed to the
inner layer). -/
structure HLOut where
  tokens : List Bytes
  error : Option Bytes
  agreed : Option (Bytes × Bytes)
deriving DecidableEq, Repr

/-- The agreement test at the top of `hl::State::poll`, together with its
effect on the accumulator. `acc1` is the accumulator after the chunk was
appended. When both proposed protocols are set and equal, the emitted bytes
are `ll::State::end(bytes)` — which, the chunk having already been appended,
is `acc1 ++ bytes` (i.e. `acc_old ++ bytes ++ bytes`) unless the accumulator
is empty — and the accumulator is emptied (`mem::take`). -/
def hlAgree (thisDone otherDone : Option Bytes) (acc1 bytes : Bytes) :
    Option (Bytes × Bytes) × Bytes :=
  match thisDone, otherDone with
  | some lp, some rp =>
    if lp = rp then
      if acc1 = [] then (some ((lp, bytes)), acc1)
      else (some ((lp, acc1 ++ bytes)), ([] : Bytes))
    else (none, acc1)
  | _, _ => (none, acc1)

/-- The body of `hl::State::poll` acting on the pair
(`this` direction, `other` direction) after the direction swap. -/
def hlPollCore (this other : Dir) (bytes : Bytes) : Dir × Dir × HLOut :=
  let acc1 := this.acc ++ bytes
  let (agreed, acc2) := hlAgree this.done other.done acc1 bytes
  let f0 : SelState := ⟨this.sc, this.done, other.sc, other.done⟩
  let (toks, err, accF, f) := hlLoop acc2.length acc2 f0
  (⟨accF, f.thisSc, f.thisDone⟩, ⟨other.acc, f.otherSc, f.otherDone⟩, ⟨toks, err, agreed⟩)

/-- `hl::State::poll`: select (`this`, `other`) by direction, run the core,
and write the two directions back. -/
def hlPoll (incoming : Bool) (st : HLState) (bytes : Bytes) : HLState × HLOut :=
  if incoming then
    let (t, o, out) := hlPollCore st.incoming st.outgoing bytes
    (⟨t, o⟩, out)
  else
    let (t, o, out) := hlPollCore st.outgoing st.incoming bytes
    (⟨o, t⟩, out)

/-- Fold `hl::State::poll` over a list of chunks on a fixed direction,
collecting each call's output. -/
def hlRun (incoming : Bool) (st : HLState) : List Bytes → HLState × List HLOut
  | [] => (st, [])
  | c :: cs =>
    let (st', o) := hlPoll incoming st c
    let (st'', os) := hlRun incoming st' cs
    (st'', o :: os)

/-- The data-flow-relevant state of `multistream_select::State<Inner>`:
the poison flag and the high-level negotiation state. The database stream
handle and the inner-layer value carry no information relevant to the
properties below; the bytes handed to the inner layer appear in the output
(`HLOut.agreed`). -/
structure MSState where
  error : Bool
  hl : HLState
deriving DecidableEq, Repr

/-- Fresh `multistream_select::State` (from `From<(u64, bool)>`). -/
def msInit : MSState := ⟨false, hlInit⟩

/-- `multistream_select::State::on_data`: if poisoned, return at once with
no output; otherwise poll the high-level machine, record its tokens, set
the poison flag if it reported an error, and forward `agreed` (protocol
name and bytes) to the inner layer. -/
def msOnData (st : MSState) (incoming : Bool) (bytes : Bytes) : MSState × HLOut :=
  if st.error then (st, ⟨[], none, none⟩)
  else
    let (hl', out) := hlPoll incoming st.hl bytes
    (⟨out.error.isSome, hl'⟩, out)

/-! The byte vectors of the repository's `simultaneous_connect_test`
regression, decoded from its hex constants. -/

def scVec1 : Bytes :=
  [19, 47, 109, 117, 108, 116, 105, 115, 116, 114, 101, 97, 109, 47, 49, 46, 48, 46, 48, 10,
   29, 47, 108, 105, 98, 112, 50, 112, 47, 115, 105, 109, 117, 108, 116, 97, 110, 101, 111,
   117, 115, 45, 99, 111, 110, 110, 101, 99, 116, 10, 7, 47, 110, 111, 105, 115, 101, 10]

def scVec2 : Bytes :=
  [19, 47, 109, 117, 108, 116, 105, 115, 116, 114, 101, 97, 109, 47, 49, 46, 48, 46, 48, 10,
   29, 47, 108, 105, 98, 112, 50, 112, 47, 115, 105, 109, 117, 108, 116, 97, 110, 101, 111,
   117, 115, 45, 99, 111, 110, 110, 101, 99, 116, 10, 7, 47, 110, 111, 105, 115, 101, 10,
   28, 115, 101, 108, 101, 99, 116, 58, 49, 56, 51, 51, 54, 55, 51, 54, 50, 55, 50, 52, 56,
   49, 57, 53, 50, 48, 51, 56, 10]

def scVec3 : Bytes :=
  [28, 115, 101, 108, 101, 99, 116, 58, 49, 52, 56, 56, 51, 53, 56, 48, 53, 49, 57, 52, 54,
   56, 52, 51, 56, 50, 57, 55, 10, 10, 114, 101, 115, 112, 111, 110, 100, 101, 114, 10]

def scVec4 : Bytes := [10, 105, 110, 105, 116, 105, 97, 116, 111, 114, 10, 7, 47, 110, 111, 105, 115, 101, 10]

def scVec5 : Bytes := [7, 47, 110, 111, 105, 115, 101, 10]

def scVec6 : Bytes :=
  [0, 32, 194, 156, 74, 169, 188, 134, 26, 195, 22, 59, 252, 86, 42, 179, 241, 202, 152, 68,
   64, 245, 12, 167, 148, 74, 177, 252, 180, 11, 57, 139, 172, 52]

/-! The six `on_data` calls of the regression, alternating directions as in
the test (`false, true, false, true, false, true`). -/

def scStep1 := msOnData msInit false scVec1
def scStep2 := msOnData scStep1.1 true scVec2
def scStep3 := msOnData scStep2.1 false scVec3
def scStep4 := msOnData scStep3.1 true scVec4
def scStep5 := msOnData scStep4.1 false scVec5
def scStep6 := msOnData scStep5.1 true scVec6

/-- A state in which the outgoing direction has proposed `/noise` and the
incoming direction has proposed nothing yet. -/
def cxSt : HLState := (hlPoll false hlInit scVec5).1

/-- A poisoned layer state: an incoming chunk whose single message `[255]`
is not valid UTF-8 sets the error flag. -/
def poisonSt : MSState := (msOnData msInit true [1, 255]).1

/-! ## User-space demultiplexer (the event loop of `bpf-recorder/src/main.rs`) -/

/-- A remote socket address (only the port drives recorder policy). -/
structure SockAddrM where
  host : Nat
  port : Nat
deriving DecidableEq, Repr

/-- The typed events the loop consumes (`SnifferEventVariant`, with the
header's pid/fd attached). -/
inductive DemuxEvent
  | newApp (pid : Nat) (al : Bytes)
  | errorEv
  | outgoingConnection (pid fd : Nat) (addr : SockAddrM)
  | incomingConnection (pid fd : Nat) (addr : SockAddrM)
  | disconnected (pid fd : Nat)
  | incomingData (pid fd : Nat) (data : Bytes)
  | outgoingData (pid fd : Nat) (data : Bytes)
  | random (pid : Nat) (r : Bytes)
deriving DecidableEq, Repr

/-- Calls delivered to the recorder (`P2pRecorder` methods). -/
inductive RecAction
  | onConnect (incoming : Bool) (pid fd : Nat) (addr : SockAddrM)
  | onDisconnect (pid fd : Nat) (addr : SockAddrM)
  | onData (incoming : Bool) (pid fd : Nat) (addr : SockAddrM) (data : Bytes)
  | onRandomness (al : Bytes) (r : Bytes)
deriving DecidableEq, Repr

/-- The loop's tables: `apps : pid → alias`, `p2p_cns` and `ignored_cns`
keyed by `(pid, fd)`. -/
structure DemuxState where
  apps : Nat → Option Bytes
  p2p : Nat × Nat → Option SockAddrM
  ignored : Nat × Nat → Option SockAddrM

/-- The empty tables at loop start. -/
def demuxInit : DemuxState := ⟨fun _ => none, fun _ => none, fun _ => none⟩

def p2pPort : Nat := 8302

/-- One iteration of the event loop: the `match event.variant` in `main`.
On a connection event for an alias-known pid with a matching port, the key
is (re-)registered; a previous registration at the same `(pid, fd)` first
produces a synthesized `onDisconnect` with the old address. -/
def demuxStep (st : DemuxState) (ev : DemuxEvent) : DemuxState × List RecAction :=
  match ev with
  | .newApp pid al =>
    ({ st with apps := fun p => if p = pid then some al else st.apps p }, [])
  | .errorEv => (st, [])
  | .outgoingConnection pid fd addr =>
    match st.apps pid with
    | none => (st, [])
    | some _ =>
      if addr.port = p2pPort then
        let old := st.p2p (pid, fd)
        let st' := { st with p2p := fun k => if k = (pid, fd) then some addr else st.p2p k }
        match old with
        | some oldAddr =>
          (st', [.onDisconnect pid fd oldAddr, .onConnect false pid fd addr])
        | none => (st', [.onConnect false pid fd addr])
      else
        ({ st with ignored := fun k => if k = (pid, fd) then some addr else st.ignored k }, [])
  | .incomingConnection pid fd addr =>
    match st.apps pid with
    | none => (st, [])
    | some _ =>
      if addr.port = p2pPort ∨ 49152 ≤ addr.port then
        let old := st.p2p (pid, fd)
        let st' := { st with p2p := fun k => if k = (pid, fd) then some addr else st.p2p k }
        match old with
        | some oldAddr =>
          (st', [.onDisconnect pid fd oldAddr, .onConnect true pid fd addr])
        | none => (st', [.onConnect true pid fd addr])
      else
        ({ st with ignored := fun k => if k = (pid, fd) then some addr else st.ignored k }, [])
  | .disconnected pid fd =>
    match st.apps pid with
    | none => (st, [])
    | some _ =>
      match st.p2p (pid, fd) with
      | some addr =>
        ({ st with p2p := fun k => if k = (pid, fd) then none else st.p2p k },
         [.onDisconnect pid fd addr])
      | none => (st, [])
  | .incomingData pid fd data =>
    match st.apps pid with
    | none => (st, [])
    | some _ =>
      match st.p2p (pid, fd) with
      | some addr => (st, [.onData true pid fd addr data])
      | none => (st, [])
  | .outgoingData pid fd data =>
    match st.apps pid with
    | none => (st, [])
    | some _ =>
      match st.p2p (pid, fd) with
      | some addr => (st, [.onData false pid fd addr data])
      | none => (st, [])
  | .random pid r =>
    match st.apps pid with
    | none => (st, [])
    | some al => (st, [.onRandomness al r])

/-- Run the loop over an event list, concatenating the delivered actions. -/
def demuxRun (st : DemuxState) : List DemuxEvent → DemuxState × List RecAction
  | [] => (st, [])
  | ev :: evs =>
    let (st', acts) := demuxStep st ev
    let (st'', rest) := demuxRun st' evs
    (st'', acts ++ rest)

/-- The connect/disconnect alternation discipline on a delivered action
trace: an `onConnect` for key `(pid, fd)` may only be delivered while the
key is inactive; `onConnect` activates the key and `onDisconnect`
deactivates it. -/
def goodTrace (active : Nat × Nat → Bool) : List RecAction → Prop
  | [] => True
  | .onConnect _ pid fd _ :: rest =>
    active (pid, fd) = false ∧
      goodTrace (fun k => if k = (pid, fd) then true else active k) rest
  | .onDisconnect pid fd _ :: rest =>
    goodTrace (fun k => if k = (pid, fd) then false else active k) rest
  | _ :: rest => goodTrace active rest

/-- The key-activation state after a list of recorder actions. -/
def activeAfter (active : Nat × Nat → Bool) : List RecAction → (Nat × Nat → Bool)
  | [] => active
  | .onConnect _ pid fd _ :: rest =>
    activeAfter (fun k => if k = (pid, fd) then true else active k) rest
  | .onDisconnect pid fd _ :: rest =>
    activeAfter (fun k => if k = (pid, fd) then false else active k) rest
  | _ :: rest => activeAfter active rest

/-! ## Recorder randomness queue (`mina-recorder/src/recorder.rs`) -/

/-- `Cx`: the recorder's shared context — a single `VecDeque` of 32-byte
randomness samples (the back of the list is the back of the deque). -/
structure CxM where
  randomness : List Bytes
deriving DecidableEq, Repr

/-- `Cx::push_randomness`: `push_back`. -/
def pushRandomness (cx : CxM) (bytes : Bytes) : CxM :=
  ⟨cx.randomness ++ [bytes]⟩

/-- `Cx::iter_rand`: `iter().rev()` — newest first. -/
def iterRand (cx : CxM) : List Bytes := cx.randomness.reverse

/-- `P2pRecorder::on_randomness(alias, bytes)`: logs the alias and pushes
the sample onto the single shared queue; the alias does not influence the
state. -/
def onRandomness (cx : CxM) (al : Bytes) (bytes : Bytes) : CxM :=
  let _ := al
  pushRandomness cx bytes

/-! ## Ring-buffer consumer (`bpf-ring-buffer/src/lib.rs`, `RingBuffer::read`) -/

/-- `(length + 7) / 8 * 8`: round up to the 8-byte record alignment. -/
def align8 (n : Nat) : Nat := (n + 7) / 8 * 8

/-- The consumer-visible state of `RingBuffer`: the capacity mask, the
local position `consumer_pos_value`, the last value release-stored to the
shared consumer-position word, and the fill-report watermark. -/
structure RbConsumer where
  mask : Nat
  consumerPos : Nat
  sharedPos : Nat
  lastReportedPercent : Nat
deriving DecidableEq, Repr

/-- The outcome of one iteration of the `loop` in `RingBuffer::read`,
given the acquire-loaded producer position and record header. -/
inductive RbStep
  | fatal
  | stop
  | overflow
  | busy
  | consumed (discard : Bool) (length : Nat) (st' : RbConsumer)
deriving DecidableEq, Repr

/-- One iteration of `RingBuffer::read`: compare positions, check fill,
read the header (`& 0xffffffff`), yield on `BUSY`, clear the `DISCARD`
bit to obtain the length, advance the local position by
`8 + align8 length`, and release-store it to the shared word. -/
def rbReadStep (st : RbConsumer) (prodPos header64 : Nat) : RbStep :=
  if prodPos < st.consumerPos then .fatal
  else if prodPos = st.consumerPos then .stop
  else
    let distance := prodPos - st.consumerPos
    let quant := (st.mask + 1) / 100
    let percent := distance / quant
    if 100 ≤ percent then .overflow
    else
      let lastReported' :=
        if st.lastReportedPercent < percent then percent
        else if percent < st.lastReportedPercent then percent
        else st.lastReportedPercent
      let header := header64 % 2 ^ 32
      if header / 2 ^ 31 % 2 = 1 then .busy
      else
        let length := header &&& (2 ^ 64 - 1 - 2 ^ 30)
        let discard := header / 2 ^ 30 % 2 = 1
        let newPos := st.consumerPos + 8 + align8 length
        .consumed discard length
          { st with
            consumerPos := newPos
            sharedPos := newPos
            lastReportedPercent := lastReported' }

/-! ## Kernel probe exit path (`bpf-recorder/src/main.rs`, `App::on_ret`) -/

/-- Cast a natural to a signed 32-bit value (Rust `as i32`). -/
def toSigned32 (n : Nat) : Int :=
  if n % 2 ^ 32 < 2 ^ 31 then ((n % 2 ^ 32 : Nat) : Int)
  else ((n % 2 ^ 32 : Nat) : Int) - 2 ^ 32

/-- `Event::set_ok(size: u64)`: stored as `i32`. -/
def setOk (n : Nat) : Int := toSigned32 n

/-- `Event::set_err(code: i64)`: stored as `i32` (low 32 bits, signed). -/
def setErr (ret : Int) : Int := toSigned32 ((ret % 2 ^ 32).toNat)

/-- The socket id `((fd as u64) << 32) + pid` (no 64-bit overflow for
32-bit `fd`, `pid`). -/
def sockId (fd pid : Nat) : Nat := (fd <<< 32) + pid

/-- Tag codes of `DataTag` (`repr(u32)`, declaration order). -/
def tagDebug : Nat := 0
def tagClose : Nat := 1
def tagConnect : Nat := 2
def tagBind : Nat := 3
def tagListen : Nat := 4
def tagAccept : Nat := 5
def tagWrite : Nat := 6
def tagRead : Nat := 7
def tagAlias : Nat := 8
def tagRandom : Nat := 9

/-- The pending-syscall record variants (`context::Variant`), with the
fields `on_ret` consumes. -/
inductive KVariant
  | empty (ptr len : Nat)
  | bind (fd addrPtr addrLen : Nat)
  | connect (fd addrPtr addrLen : Nat)
  | accept (listenFd addrPtr addrLen : Nat)
  | send (fd : Nat)
  | write (fd : Nat)
  | recv (fd : Nat)
  | read (fd : Nat)
  | getrandom (dataPtr dataLen : Nat)
deriving DecidableEq, Repr

/-- The 32-byte event header the probe would emit (payload copy elided). -/
structure KEvent where
  fd : Nat
  pid : Nat
  tag : Nat
  size : Int
deriving DecidableEq, Repr

/-- `App::on_ret`: dispatch on the stored variant given the syscall return.
`conns` is the live-socket map (`connections`), `family` the result of
`check_addr`'s 2-byte read of the user address (`none` = unreadable).
Returns the updated map and the event sent to the ring (`none` when the
handler returns without sending: `EAGAIN`, `check_addr` failure, or an
untracked socket id on the data paths). -/
def onRet (conns : Nat → Bool) (family : Option Nat) (pid : Nat) (ret : Int) (v : KVariant) :
    (Nat → Bool) × Option KEvent :=
  if ret = -11 then (conns, none)
  else
    match v with
    | .empty _ len =>
      (conns, some ⟨0, pid, tagDebug, if ret < 0 then setErr ret else setOk len⟩)
    | .bind fd _ addrLen =>
      (conns, some ⟨fd, pid, tagBind, if ret < 0 then setErr ret else setOk addrLen⟩)
    | .connect fd _ addrLen =>
      match family with
      | none => (conns, none)
      | some ty =>
        if ty ≠ 2 ∧ ty ≠ 10 then (conns, none)
        else if ret < 0 ∧ ret ≠ -115 then
          (conns, some ⟨fd, pid, tagConnect, setErr ret⟩)
        else
          (fun s => if s = sockId fd pid then true else conns s,
           some ⟨fd, pid, tagConnect, setOk addrLen⟩)
    | .accept _ _ addrLen =>
      let fd := (ret % 2 ^ 32).toNat
      if ret < 0 then (conns, some ⟨fd, pid, tagAccept, setErr ret⟩)
      else
        match family with
        | none => (conns, none)
        | some ty =>
          if ty ≠ 2 ∧ ty ≠ 10 then (conns, none)
          else
            (fun s => if s = sockId fd pid then true else conns s,
             some ⟨fd, pid, tagAccept, setOk addrLen⟩)
    | .send fd =>
      if conns (sockId fd pid) = false then (conns, none)
      else (conns, some ⟨fd, pid, tagWrite, if ret < 0 then setErr ret else setOk ret.toNat⟩)
    | .write fd =>
      if conns (sockId fd pid) = false then (conns, none)
      else (conns, some ⟨fd, pid, tagWrite, if ret < 0 then setErr ret else setOk ret.toNat⟩)
    | .recv fd =>
      if conns (sockId fd pid) = false then (conns, none)
      else (conns, some ⟨fd, pid, tagRead, if ret < 0 then setErr ret else setOk ret.toNat⟩)
    | .read fd =>
      if conns (sockId fd pid) = false then (conns, none)
      else (conns, some ⟨fd, pid, tagRead, if ret < 0 then setErr ret else setOk ret.toNat⟩)
    | .getrandom _ dataLen =>
      (conns, some ⟨0, pid, tagRandom, setOk dataLen⟩)

/-! ## Event parser (`bpf-recorder/src/lib.rs`, `SnifferEvent::from_rb_slice`) -/

/-- Host-native (little-endian) u32 at byte offset `off`. -/
def le32At (l : Bytes) (off : Nat) : Nat :=
  l.getD off 0 % 256 + 256 * (l.getD (off + 1) 0 % 256) +
    256 ^ 2 * (l.getD (off + 2) 0 % 256) + 256 ^ 3 * (l.getD (off + 3) 0 % 256)

/-- Host-native (little-endian) u64 at byte offset `off`. -/
def le64At (l : Bytes) (off : Nat) : Nat :=
  le32At l off + 2 ^ 32 * le32At l (off + 4)

/-- The signed `size` field of an event header. -/
def sizeField (slice : Bytes) : Int := toSigned32 (le32At slice 28)

/-- A parsed socket address (`SocketAddr`). -/
inductive AddrM
  | v4 (ip : Bytes) (port : Nat)
  | v6 (ip : Bytes) (port : Nat)
deriving DecidableEq, Repr

/-- `SnifferEventVariant`. -/
inductive SnifferVariantM
  | newApp (s : Bytes)
  | incomingConnection (addr : AddrM)
  | outgoingConnection (addr : AddrM)
  | disconnected
  | incomingData (d : Bytes)
  | outgoingData (d : Bytes)
  | random (d : Bytes)
  | error (tag : Nat) (size : Int)
deriving DecidableEq, Repr

/-- `SnifferEvent`. -/
structure SnifferEventM where
  pid : Nat
  fd : Nat
  ts0 : Nat
  ts1 : Nat
  variant : SnifferVariantM
deriving DecidableEq, Repr

/-- Result of `SnifferEvent::from_rb_slice`: the documented
`ErrorSliceTooShort`, a Rust panic (`unwrap`/slice-index failure), or
`Ok` with an optional event (`None` when the record is deliberately
dropped). -/
inductive RbParse
  | tooShort
  | panicked
  | ok (e : Option SnifferEventM)
deriving DecidableEq, Repr

/-- `SnifferEvent::from_rb_slice`. `Event::from_bytes` is inlined: it
asserts a 32-byte header (guaranteed by the preceding length check) and
`unwrap`s `DataTag::from_u32`, which panics for tag values ≥ 10 before
the `size` field is even examined. Slice indexing (`data[0..2]`,
`data[4..8]`, `data[8..24]`), `String::from_utf8(..).unwrap()`, and the
32-byte array conversion for `Random` panic on mismatched payloads. -/
def fromRbSlice (slice : Bytes) : RbParse :=
  if slice.length < 32 then .tooShort
  else
    let tag := le32At slice 24
    if 10 ≤ tag then .panicked
    else
      let fd := le32At slice 0
      let pid := le32At slice 4
      let ts0 := le64At slice 8
      let ts1 := le64At slice 16
      let size := sizeField slice
      let mk := fun v => RbParse.ok (some ⟨pid, fd, ts0, ts1, v⟩)
      if size < 0 then mk (.error tag size)
      else
        let sz := size.toNat
        if slice.length < 32 + sz then .tooShort
        else
          let data := (slice.drop 32).take sz
          if tag = tagAccept ∨ tag = tagConnect then
            if sz < 4 then .panicked
            else
              let af := data.getD 0 0 % 256 + 256 * (data.getD 1 0 % 256)
              let port := 256 * (data.getD 2 0 % 256) + data.getD 3 0 % 256
              if af = 2 then
                if sz < 8 then .panicked
                else if tag = tagAccept then
                  mk (.incomingConnection (.v4 ((data.drop 4).take 4) port))
                else mk (.outgoingConnection (.v4 ((data.drop 4).take 4) port))
              else if af = 10 then
                if sz < 24 then .panicked
                else if tag = tagAccept then
                  mk (.incomingConnection (.v6 ((data.drop 8).take 16) port))
                else mk (.outgoingConnection (.v6 ((data.drop 8).take 16) port))
              else .ok none
          else if tag = tagRead then mk (.incomingData data)
          else if tag = tagWrite then mk (.outgoingData data)
          else if tag = tagClose then mk .disconnected
          else if tag = tagAlias then
            if utf8Valid data then mk (.newApp data) else .panicked
          else if tag = tagRandom then
            if data.length = 32 then mk (.random data) else .panicked
          else .ok none

/-! Concrete slices exercising the parser's panic paths. -/

/-- 32-byte header, tag field 10 (no such `DataTag`), size −1. -/
def badTagSlice : Bytes :=
  List.replicate 24 0 ++ [10, 0, 0, 0, 255, 255, 255, 255]

/-- 32-byte header, tag field 10, size 5 (and no payload). -/
def badTagShortSlice : Bytes :=
  List.replicate 24 0 ++ [10, 0, 0, 0, 5, 0, 0, 0]

/-- `Connect` record claiming a 4-byte sockaddr: family 2 needs 8 bytes. -/
def badConnectSlice : Bytes :=
  List.replicate 24 0 ++ [2, 0, 0, 0, 4, 0, 0, 0] ++ [2, 0, 31, 144]

/-- `Random` record with a 1-byte sample instead of 32. -/
def badRandomSlice : Bytes :=
  List.replicate 24 0 ++ [9, 0, 0, 0, 1, 0, 0, 0] ++ [0]

/-- `Alias` record whose payload is not valid UTF-8. -/
def badAliasSlice : Bytes :=
  List.replicate 24 0 ++ [8, 0, 0, 0, 1, 0, 0, 0] ++ [255]

/-! ## Theorems -/

/-! Bridging lemmas from the standard library, restated locally. -/

theorem prefixOf_iff {l₁ l₂ : Bytes} : l₁.isPrefixOf l₂ = true ↔ l₁ <+: l₂ :=
  List.isPrefixOf_iff_prefix

theorem prefixOf_or {l₁ l₂ l₃ : Bytes} (h1 : l₁ <+: l₃) (h2 : l₂ <+: l₃) :
    l₁ <+: l₂ ∨ l₂ <+: l₁ :=
  List.prefix_or_prefix_of_prefix h1 h2

theorem prefixAppend (l₁ l₂ : Bytes) : l₁ <+: l₁ ++ l₂ :=
  List.prefix_append l₁ l₂


example : decodeVarint [7, 1, 2] = some (7, [1, 2]) := by decide

example : decodeVarint [0x87, 0x01, 5] = some (0x87 &&& 0x7f ||| (1 <<< 7), [5]) := by decide

example : utf8Valid [47, 110, 111, 105, 115, 101, 10] = true := by decide
example : utf8Valid [255] = false := by decide

example : llPoll nlInitiator = some (.initTok, []) := by decide
example : llPoll [7, 47, 110, 111, 105, 115, 101, 10, 9] =
    some (.strTok [47, 110, 111, 105, 115, 101], [9]) := by decide
example : llPoll [1, 255, 3] = some (.errTok [255], [3]) := by decide
example : llPoll [5, 1, 2] = none := by decide

/-! ### Chunking lemmas for the low-level parser -/

theorem decodeVarintAux_append (ys : Bytes) :
    ∀ (xs : Bytes) (i n v : Nat) (rest : Bytes),
      decodeVarintAux i n xs = some ((v, rest)) →
      decodeVarintAux i n (xs ++ ys) = some ((v, rest ++ ys)) := by
  intro xs
  induction xs with
  | nil => intro i n v rest h; simp [decodeVarintAux] at h
  | cons b bs ih =>
    intro i n v rest h
    rw [List.cons_append]
    simp only [decodeVarintAux] at h ⊢
    split_ifs at h ⊢ with h1 h2 h3
    · cases h; rfl
    · exact ih _ _ _ _ h

theorem decodeVarintAux_length :
    ∀ (xs : Bytes) (i n v : Nat) (rest : Bytes),
      decodeVarintAux i n xs = some ((v, rest)) → rest.length < xs.length := by
  intro xs
  induction xs with
  | nil => intro i n v rest h; simp [decodeVarintAux] at h
  | cons b bs ih =>
    intro i n v rest h
    simp only [decodeVarintAux] at h
    split_ifs at h with h1 h2 h3
    · cases h
      simp only [List.length_cons]
      omega
    · refine Nat.lt_trans (ih _ _ _ _ h) ?_
      simp only [List.length_cons]
      omega

theorem llPoll_nil : llPoll [] = none := by decide

theorem llPoll_length (acc : Bytes) (r : LLRes) (rest : Bytes)
    (h : llPoll acc = some ((r, rest))) : rest.length < acc.length := by
  unfold llPoll at h
  split_ifs at h with h1 h2
  · have h11 : 11 ≤ acc.length := by
      simpa [nlInitiator] using (prefixOf_iff.mp h1).length_le
    cases h
    simp only [List.length_drop]
    omega
  · have h11 : 11 ≤ acc.length := by
      simpa [nlResponder] using (prefixOf_iff.mp h2).length_le
    cases h
    simp only [List.length_drop]
    omega
  · rcases hdec : decodeVarint acc with _ | ⟨len, rem⟩
    · rw [hdec] at h; cases h
    · rw [hdec] at h
      have hrem : rem.length < acc.length := decodeVarintAux_length acc 0 0 len rem hdec
      dsimp only at h
      split_ifs at h with hlt hv
      · cases h
        simp only [List.length_drop]
        omega
      · cases h
        simp only [List.length_drop]
        omega

/-- A nonempty proper prefix of `b"\ninitiator\n"` or `b"\nresponder\n"` never
yields a parse: its first byte `10` decodes as a varint length of 10 but at
most 9 bytes follow. -/
theorem llPoll_prefix_pat_none (acc : Bytes) (hlen : acc.length ≤ 10)
    (hpre : acc <+: nlInitiator ∨ acc <+: nlResponder) : llPoll acc = none := by
  match acc with
  | [] => exact llPoll_nil
  | a :: t =>
    have hat : a = 10 ∧ t.length ≤ 9 := by
      rcases hpre with hp | hp
      · rw [nlInitiator, List.cons_prefix_cons] at hp
        exact ⟨hp.1, by simpa using hlen⟩
      · rw [nlResponder, List.cons_prefix_cons] at hp
        exact ⟨hp.1, by simpa using hlen⟩
    obtain ⟨rfl, ht⟩ := hat
    have hni : ¬ nlInitiator.isPrefixOf (10 :: t) := by
      intro hc
      have := (prefixOf_iff.mp hc).length_le
      simp [nlInitiator] at this
      omega
    have hnr : ¬ nlResponder.isPrefixOf (10 :: t) := by
      intro hc
      have := (prefixOf_iff.mp hc).length_le
      simp [nlResponder] at this
      omega
    have hval : (0 : Nat) ||| (((10 % 256 % 128) <<< (7 * 0)) % 2 ^ 64) = 10 := by decide
    have hdec : decodeVarint (10 :: t) = some ((10, t)) := by
      simp [decodeVarint, decodeVarintAux, hval]
    unfold llPoll
    rw [if_neg hni, if_neg hnr, hdec]
    dsimp only
    rw [if_pos (by omega : t.length < 10)]

theorem llPoll_append (acc ys : Bytes) (r : LLRes) (rest : Bytes)
    (h : llPoll acc = some ((r, rest))) :
    llPoll (acc ++ ys) = some ((r, rest ++ ys)) := by
  by_cases h1 : nlInitiator.isPrefixOf acc
  · have hp := prefixOf_iff.mp h1
    have h11 : 11 ≤ acc.length := by simpa [nlInitiator] using hp.length_le
    have h1' : nlInitiator.isPrefixOf (acc ++ ys) :=
      prefixOf_iff.mpr (hp.trans (prefixAppend acc ys))
    unfold llPoll at h ⊢
    rw [if_pos h1] at h
    rw [if_pos h1', List.drop_append_of_le_length h11]
    cases h; rfl
  · by_cases h2 : nlResponder.isPrefixOf acc
    · have hp := prefixOf_iff.mp h2
      have h11 : 11 ≤ acc.length := by simpa [nlResponder] using hp.length_le
      have h2' : nlResponder.isPrefixOf (acc ++ ys) :=
        prefixOf_iff.mpr (hp.trans (prefixAppend acc ys))
      have h1' : ¬ nlInitiator.isPrefixOf (acc ++ ys) := by
        intro hc
        have heq : nlInitiator = nlResponder := by
          have hpi := prefixOf_iff.mp hc
          have hpr := prefixOf_iff.mp h2'
          have hll : nlInitiator.length = nlResponder.length := by decide
          rcases prefixOf_or hpi hpr with h' | h'
          · exact h'.eq_of_length hll
          · exact (h'.eq_of_length hll.symm).symm
        exact absurd heq (by decide)
      unfold llPoll at h ⊢
      rw [if_neg h1, if_pos h2] at h
      rw [if_neg h1', if_pos h2', List.drop_append_of_le_length h11]
      cases h; rfl
    · have key : ∀ pat : Bytes, pat = nlInitiator ∨ pat = nlResponder →
          ¬ pat.isPrefixOf acc → pat.isPrefixOf (acc ++ ys) → False := by
        intro pat hpat hnp hc
        have hpc := prefixOf_iff.mp hc
        have haccp : acc <+: pat := by
          rcases prefixOf_or (prefixAppend acc ys) hpc with h' | h'
          · exact h'
          · exact absurd (prefixOf_iff.mpr h') hnp
        have hpl : pat.length = 11 := by rcases hpat with rfl | rfl <;> decide
        have hle : acc.length ≤ 11 := by
          have := haccp.length_le
          omega
        have hlt : acc.length ≤ 10 := by
          rcases Nat.lt_or_ge acc.length 11 with h' | h'
          · omega
          · exfalso
            have : acc = pat := haccp.eq_of_length (by omega)
            subst this
            exact hnp (prefixOf_iff.mpr (List.prefix_refl _))
        have hnone : llPoll acc = none := by
          refine llPoll_prefix_pat_none acc hlt ?_
          rcases hpat with rfl | rfl
          · exact Or.inl haccp
          · exact Or.inr haccp
        rw [hnone] at h
        cases h
      have h1' : ¬ nlInitiator.isPrefixOf (acc ++ ys) := fun hc => key _ (Or.inl rfl) h1 hc
      have h2' : ¬ nlResponder.isPrefixOf (acc ++ ys) := fun hc => key _ (Or.inr rfl) h2 hc
      unfold llPoll at h ⊢
      rw [if_neg h1, if_neg h2] at h
      rw [if_neg h1', if_neg h2']
      rcases hdec : decodeVarint acc with _ | ⟨len, rem⟩
      · rw [hdec] at h; cases h
      · rw [hdec] at h
        have hdec' : decodeVarint (acc ++ ys) = some ((len, rem ++ ys)) :=
          decodeVarintAux_append ys acc 0 0 len rem hdec
        rw [hdec']
        dsimp only at h ⊢
        by_cases hlt : rem.length < len
        · rw [if_pos hlt] at h
          cases h
        · have hlen : len ≤ rem.length := le_of_not_lt hlt
          rw [if_neg hlt] at h
          have hlen2 : ¬ (rem ++ ys).length < len := by
            simp only [List.length_append]
            omega
          rw [if_neg hlen2, List.take_append_of_le_length hlen,
            List.drop_append_of_le_length hlen]
          by_cases hv : utf8Valid (List.take len rem) = true
          · rw [if_pos hv] at h ⊢
            cases h; rfl
          · rw [if_neg hv] at h ⊢
            cases h; rfl

/-- `hlLoop` is independent of the fuel as soon as the fuel covers the
accumulator length (each successful `llPoll` consumes at least one byte). -/
theorem hlLoop_fuel :
    ∀ (fuel fuel' : Nat) (acc : Bytes) (f : SelState),
      acc.length ≤ fuel → acc.length ≤ fuel' →
      hlLoop fuel acc f = hlLoop fuel' acc f := by
  intro fuel
  induction fuel with
  | zero =>
    intro fuel' acc f h h'
    have hacc : acc = [] := List.length_eq_zero.mp (Nat.le_zero.mp h)
    subst hacc
    cases fuel' with
    | zero => rfl
    | succ m => simp [hlLoop, llPoll_nil]
  | succ k ih =>
    intro fuel' acc f h h'
    cases fuel' with
    | zero =>
      have hacc : acc = [] := List.length_eq_zero.mp (Nat.le_zero.mp h')
      subst hacc
      simp [hlLoop, llPoll_nil]
    | succ m =>
      simp only [hlLoop]
      rcases hll : llPoll acc with _ | ⟨r, rest⟩
      · rfl
      · have hrl := llPoll_length acc r rest hll
        have hk : rest.length ≤ k := by omega
        have hm : rest.length ≤ m := by omega
        cases r with
        | initTok => dsimp only; rw [ih m rest f hk hm]
        | respTok => dsimp only; rw [ih m rest f hk hm]
        | strTok s => dsimp only; rw [ih m rest (tokenEffect s f) hk hm]
        | errTok msg => rfl

/-- Composing `hlLoop` runs: draining `a` without error and then draining
the leftover together with `b` is the same as draining `a ++ b` at once. -/
theorem hlLoop_append :
    ∀ (fuel₁ : Nat) (a : Bytes) (f : SelState) (t₁ : List Bytes) (l₁ : Bytes) (f₁ : SelState)
      (fuel₂ fuel₃ : Nat) (b : Bytes) (t₂ : List Bytes) (e : Option Bytes) (l₂ : Bytes)
      (f₂ : SelState),
      a.length ≤ fuel₁ → (l₁ ++ b).length ≤ fuel₂ → (a ++ b).length ≤ fuel₃ →
      hlLoop fuel₁ a f = (t₁, none, l₁, f₁) →
      hlLoop fuel₂ (l₁ ++ b) f₁ = (t₂, e, l₂, f₂) →
      hlLoop fuel₃ (a ++ b) f = (t₁ ++ t₂, e, l₂, f₂) := by
  intro fuel₁
  induction fuel₁ with
  | zero =>
    intro a f t₁ l₁ f₁ fuel₂ fuel₃ b t₂ e l₂ f₂ ha hb hab h₁ h₂
    have hacc : a = [] := List.length_eq_zero.mp (Nat.le_zero.mp ha)
    subst hacc
    rw [show hlLoop 0 ([] : Bytes) f = ([], none, [], f) from rfl] at h₁
    cases h₁
    simp only [List.nil_append] at h₂ ⊢
    rw [hlLoop_fuel fuel₃ fuel₂ b f hab hb, h₂]
  | succ k ih =>
    intro a f t₁ l₁ f₁ fuel₂ fuel₃ b t₂ e l₂ f₂ ha hb hab h₁ h₂
    rcases hll : llPoll a with _ | ⟨r, rest⟩
    · simp only [hlLoop, hll] at h₁
      cases h₁
      simp only [List.nil_append]
      rw [hlLoop_fuel fuel₃ fuel₂ (a ++ b) f hab hb, h₂]
    · have hrl := llPoll_length a r rest hll
      have hane : 1 ≤ a.length := by omega
      have hab1 : 1 ≤ (a ++ b).length := by
        simp only [List.length_append]
        omega
      cases fuel₃ with
      | zero => omega
      | succ m =>
        have hll' := llPoll_append a b r rest hll
        have hrest : rest.length ≤ k := by omega
        have hrestb : (rest ++ b).length ≤ m := by
          simp only [List.length_append] at hab ⊢
          omega
        cases r with
        | errTok msg =>
          simp only [hlLoop, hll] at h₁
          exact absurd h₁ (by simp)
        | initTok =>
          rcases hrec : hlLoop k rest f with ⟨t', e', a', f''⟩
          simp only [hlLoop, hll, hrec] at h₁
          cases h₁
          simp only [hlLoop, hll']
          rw [ih _ _ _ _ _ _ _ _ _ _ _ _ hrest hb hrestb hrec h₂]
          rfl
        | respTok =>
          rcases hrec : hlLoop k rest f with ⟨t', e', a', f''⟩
          simp only [hlLoop, hll, hrec] at h₁
          cases h₁
          simp only [hlLoop, hll']
          rw [ih _ _ _ _ _ _ _ _ _ _ _ _ hrest hb hrestb hrec h₂]
          rfl
        | strTok s =>
          rcases hrec : hlLoop k rest (tokenEffect s f) with ⟨t', e', a', f''⟩
          simp only [hlLoop, hll, hrec] at h₁
          cases h₁
          simp only [hlLoop, hll']
          rw [ih _ _ _ _ _ _ _ _ _ _ _ _ hrest hb hrestb hrec h₂]
          rfl

/-- If the agreement test does not fire, it fires for no accumulator and
bytes, and leaves any accumulator unchanged (the proposed-protocol pair
alone decides). -/
theorem hlAgree_none (d₁ d₂ : Option Bytes) (acc bytes : Bytes)
    (h : (hlAgree d₁ d₂ acc bytes).1 = none) :
    ∀ (acc' bytes' : Bytes), hlAgree d₁ d₂ acc' bytes' = (none, acc') := by
  intro acc' bytes'
  rcases d₁ with _ | lp
  · rfl
  · rcases d₂ with _ | rp
    · rfl
    · simp only [hlAgree] at h ⊢
      by_cases he : lp = rp
      · rw [if_pos he] at h
        split_ifs at h
      · rw [if_neg he] at h ⊢

/-- Two-chunk composition for `hlPollCore`: when the first call neither
agrees nor errors and the second call does not agree, processing `a ++ b`
in one call gives the same final state, concatenated tokens, and the
second call's error. -/
theorem hlPollCore_append (x y x₁ y₁ x₂ y₂ : Dir) (a b : Bytes) (u₁ u₂ : HLOut)
    (h₁ : hlPollCore x y a = (x₁, y₁, u₁))
    (h₂ : hlPollCore x₁ y₁ b = (x₂, y₂, u₂))
    (ha₁ : u₁.agreed = none) (he₁ : u₁.error = none) (ha₂ : u₂.agreed = none) :
    hlPollCore x y (a ++ b) = (x₂, y₂, ⟨u₁.tokens ++ u₂.tokens, u₂.error, none⟩) := by
  simp only [hlPollCore] at h₁
  rcases hag₁ : hlAgree x.done y.done (x.acc ++ a) a with ⟨ag₁, acc₁⟩
  rw [hag₁] at h₁
  try dsimp only at h₁
  rcases hlp₁ : hlLoop acc₁.length acc₁ ⟨x.sc, x.done, y.sc, y.done⟩ with
    ⟨toks₁, err₁, accF₁, fsc₁, fdone₁, osc₁, odone₁⟩
  rw [hlp₁] at h₁
  try dsimp only at h₁
  cases h₁
  try dsimp only at ha₁ he₁
  subst ha₁
  subst he₁
  have hpair₁ := hlAgree_none x.done y.done (x.acc ++ a) a (by rw [hag₁]) (x.acc ++ a) a
  have hacc₁ : acc₁ = x.acc ++ a := by
    rw [hag₁] at hpair₁
    cases hpair₁
    rfl
  subst hacc₁
  simp only [hlPollCore] at h₂
  try dsimp only at h₂
  rcases hag₂ : hlAgree fdone₁ odone₁ (accF₁ ++ b) b with ⟨ag₂, acc₂⟩
  rw [hag₂] at h₂
  try dsimp only at h₂
  rcases hlp₂ : hlLoop acc₂.length acc₂ ⟨fsc₁, fdone₁, osc₁, odone₁⟩ with
    ⟨toks₂, err₂, accF₂, fsc₂, fdone₂, osc₂, odone₂⟩
  rw [hlp₂] at h₂
  try dsimp only at h₂
  cases h₂
  try dsimp only at ha₂
  subst ha₂
  have hpair₂ := hlAgree_none fdone₁ odone₁ (accF₁ ++ b) b (by rw [hag₂]) (accF₁ ++ b) b
  have hacc₂ : acc₂ = accF₁ ++ b := by
    rw [hag₂] at hpair₂
    cases hpair₂
    rfl
  subst hacc₂
  simp only [hlPollCore]
  have hag' := hlAgree_none x.done y.done (x.acc ++ a) a (by rw [hag₁])
    (x.acc ++ (a ++ b)) (a ++ b)
  rw [hag']
  dsimp only
  rw [← List.append_assoc]
  have hcomp := hlLoop_append ((x.acc ++ a).length) (x.acc ++ a)
    ⟨x.sc, x.done, y.sc, y.done⟩ toks₁ accF₁ ⟨fsc₁, fdone₁, osc₁, odone₁⟩
    ((accF₁ ++ b).length) (((x.acc ++ a) ++ b).length) b toks₂ err₂ accF₂
    ⟨fsc₂, fdone₂, osc₂, odone₂⟩ le_rfl le_rfl le_rfl hlp₁ hlp₂
  rw [hcomp]

/-- Two-chunk composition for `hl::State::poll` on a fixed direction. -/
theorem hlPoll_two_chunks (inc : Bool) (st st₁ st₂ : HLState) (a b : Bytes) (u₁ u₂ : HLOut)
    (h₁ : hlPoll inc st a = (st₁, u₁)) (h₂ : hlPoll inc st₁ b = (st₂, u₂))
    (ha₁ : u₁.agreed = none) (he₁ : u₁.error = none) (ha₂ : u₂.agreed = none) :
    hlPoll inc st (a ++ b) = (st₂, ⟨u₁.tokens ++ u₂.tokens, u₂.error, none⟩) := by
  cases inc with
  | false =>
    rcases hc₁ : hlPollCore st.outgoing st.incoming a with ⟨xa, ya, ua⟩
    simp only [hlPoll, Bool.false_eq_true, if_false, hc₁] at h₁
    cases h₁
    rcases hc₂ : hlPollCore xa ya b with ⟨xb, yb, ub⟩
    simp only [hlPoll, Bool.false_eq_true, if_false] at h₂ ⊢
    try dsimp only at h₂
    rw [hc₂] at h₂
    cases h₂
    rw [hlPollCore_append _ _ _ _ _ _ _ _ _ _ hc₁ hc₂ ha₁ he₁ ha₂]
  | true =>
    rcases hc₁ : hlPollCore st.incoming st.outgoing a with ⟨xa, ya, ua⟩
    simp only [hlPoll, if_true, hc₁] at h₁
    cases h₁
    rcases hc₂ : hlPollCore xa ya b with ⟨xb, yb, ub⟩
    simp only [hlPoll, if_true] at h₂ ⊢
    try dsimp only at h₂
    rw [hc₂] at h₂
    cases h₂
    rw [hlPollCore_append _ _ _ _ _ _ _ _ _ _ hc₁ hc₂ ha₁ he₁ ha₂]

/-- C1 (amended): chunking invariance of `hl::State::poll` holds on the
negotiation phase — as long as no chunked call reports a decode error or
reaches agreement, a single poll of the concatenated bytes emits exactly
the concatenation of the chunked token sequences, no error, no agreement,
and ends in the same state. (Without these provisos the property fails,
see the counterexample.) -/
theorem hl_chunking_invariance (inc : Bool) (st : HLState) (chunks : List Bytes)
    (hne : chunks ≠ [])
    (hclean : ∀ o ∈ (hlRun inc st chunks).2, o.error = none ∧ o.agreed = none) :
    hlPoll inc st chunks.flatten =
      ((hlRun inc st chunks).1,
       ⟨((hlRun inc st chunks).2.map HLOut.tokens).flatten, none, none⟩) := by
  induction chunks generalizing st with
  | nil => exact absurd rfl hne
  | cons c cs ih =>
    rcases h₁ : hlPoll inc st c with ⟨st₁, o₁⟩
    have hrun : hlRun inc st (c :: cs) =
        ((hlRun inc st₁ cs).1, o₁ :: (hlRun inc st₁ cs).2) := by
      simp only [hlRun, h₁]
    rw [hrun] at hclean ⊢
    have ho₁ : o₁.error = none ∧ o₁.agreed = none := hclean o₁ (by simp)
    have hos : ∀ o ∈ (hlRun inc st₁ cs).2, o.error = none ∧ o.agreed = none := by
      intro o ho
      exact hclean o (by simp [ho])
    rcases Decidable.em (cs = []) with hcs | hcs
    · subst hcs
      simp only [hlRun, List.flatten_cons, List.flatten_nil, List.append_nil,
        List.map_cons, List.map_nil]
      rw [h₁]
      obtain ⟨he, hag⟩ := ho₁
      rcases o₁ with ⟨t, e, ag⟩
      dsimp only at he hag ⊢
      subst he
      subst hag
      rfl
    · have hIH := ih st₁ hcs hos
      have happ := hlPoll_two_chunks inc st st₁ (hlRun inc st₁ cs).1 c cs.flatten o₁
        ⟨((hlRun inc st₁ cs).2.map HLOut.tokens).flatten, none, none⟩
        h₁ hIH ho₁.2 ho₁.1 rfl
      simp only [List.flatten_cons]
      rw [happ]
      simp only [List.map_cons, List.flatten_cons]

/-- C2: on the simultaneous-connect regression vectors, no poll agrees until
the final chunk, which agrees on `/noise`; but the bytes handed to the inner
layer are NOT the trailing 34 bytes: `ll::State::end` is called after the
chunk was already appended to the accumulator, so the final chunk is
forwarded twice (68 bytes). This contradicts the specified behaviour
("agreement ... along with whatever un-consumed bytes follow"; "the trailing
34 bytes forwarded to the inner layer"). -/
theorem simultaneous_connect_agreement_doubles_bytes :
    scStep1.2.agreed = none ∧ scStep2.2.agreed = none ∧ scStep3.2.agreed = none ∧
    scStep4.2.agreed = none ∧ scStep5.2.agreed = none ∧
    scStep6.2.agreed = some ((msNoise, scVec6 ++ scVec6)) ∧
    scVec6.length = 34 ∧ (scVec6 ++ scVec6) ≠ scVec6 := by decide

/-- C1 counterexample: chunking is NOT invariant for `hl::State::poll`.
From `cxSt`, feeding the incoming direction `scVec5 ++ [0]` in one call
yields no agreement (the agreement test happens before the chunk's tokens
are processed), while feeding `[scVec5, [0]]` as two chunks reaches
agreement on the second chunk. -/
theorem hl_poll_chunking_counterexample :
    (hlPoll true cxSt (scVec5 ++ [0])).2.agreed = none ∧
    ((hlRun true cxSt [scVec5, [0]]).2.map HLOut.agreed)
      = [none, some ((msNoise, [0, 0]))] ∧
    (scVec5 ++ [0]) = List.flatten [scVec5, [0]] := by decide

/-- C3 counterexample: after a decoding error on the incoming direction,
bytes of the *outgoing* direction are also dropped: `on_data` returns
without touching the state and emits no tokens, although the same bytes
would decode to a `/noise` token on a healthy layer. -/
theorem poison_blocks_other_direction :
    poisonSt.error = true ∧
    msOnData poisonSt false scVec5 = (poisonSt, ⟨[], none, none⟩) ∧
    (hlPoll false poisonSt.hl scVec5).2.tokens = [msNoise] := by decide

/-- C3 (amended): a decoding error poisons the whole layer, not one
direction: once `error` is set, `on_data` drops the bytes of either
direction without processing and leaves the state unchanged (the
connection is not torn down); and the flag is set exactly when the
high-level poll reports an error. -/
theorem ms_error_poisons_layer (st : MSState) (incoming : Bool) (bytes : Bytes) :
    (st.error = true → msOnData st incoming bytes = (st, ⟨[], none, none⟩)) ∧
    (st.error = false →
      (msOnData st incoming bytes).1.error = (hlPoll incoming st.hl bytes).2.error.isSome ∧
      (msOnData st incoming bytes).1.hl = (hlPoll incoming st.hl bytes).1) := by
  constructor
  · intro h
    simp [msOnData, h]
  · intro h
    simp [msOnData, h]

/-- Witness for `ms_error_poisons_layer` at the concrete poisoned state. -/
theorem ms_error_poisons_layer_witness :
    msOnData poisonSt false scVec5 = (poisonSt, ⟨[], none, none⟩) :=
  (ms_error_poisons_layer poisonSt false scVec5).1 (by decide)

/-- Witness for `hl_chunking_invariance`: the `/noise` frame split as
`[[7], [47, 110, 111, 105, 115, 101, 10]]` on the outgoing direction. -/
theorem hl_chunking_invariance_witness :
    ([[7], [47, 110, 111, 105, 115, 101, 10]] : List Bytes) ≠ [] ∧
    (∀ o ∈ (hlRun false hlInit [[7], [47, 110, 111, 105, 115, 101, 10]]).2,
        o.error = none ∧ o.agreed = none) ∧
    hlPoll false hlInit (List.flatten [[7], [47, 110, 111, 105, 115, 101, 10]]) =
      ((hlRun false hlInit [[7], [47, 110, 111, 105, 115, 101, 10]]).1,
       ⟨((hlRun false hlInit
            [[7], [47, 110, 111, 105, 115, 101, 10]]).2.map HLOut.tokens).flatten,
        none, none⟩) :=
  ⟨by decide, by decide,
    hl_chunking_invariance false hlInit [[7], [47, 110, 111, 105, 115, 101, 10]]
      (by decide) (by decide)⟩

theorem goodTrace_append :
    ∀ (l₁ l₂ : List RecAction) (active : Nat × Nat → Bool),
      goodTrace active l₁ → goodTrace (activeAfter active l₁) l₂ →
      goodTrace active (l₁ ++ l₂) := by
  intro l₁
  induction l₁ with
  | nil =>
    intro l₂ active h₁ h₂
    exact h₂
  | cons a rest ih =>
    intro l₂ active h₁ h₂
    cases a with
    | onConnect inc pid fd addr =>
      obtain ⟨hact, hrest⟩ := h₁
      exact ⟨hact, ih l₂ _ hrest h₂⟩
    | onDisconnect pid fd addr => exact ih l₂ _ h₁ h₂
    | onData inc pid fd addr data => exact ih l₂ _ h₁ h₂
    | onRandomness al r => exact ih l₂ _ h₁ h₂

/-- Invariant: starting from any table state, the delivered trace respects
the alternation discipline, with a key active exactly when present in
`p2p_cns`. -/
theorem demuxRun_goodTrace :
    ∀ (evs : List DemuxEvent) (st : DemuxState),
      goodTrace (fun k => (st.p2p k).isSome) (demuxRun st evs).2 := by
  intro evs
  induction evs with
  | nil => intro st; trivial
  | cons ev evs ih =>
    intro st
    rcases hstep : demuxStep st ev with ⟨st', acts⟩
    have hrun : (demuxRun st (ev :: evs)).2 = acts ++ (demuxRun st' evs).2 := by
      simp [demuxRun, hstep]
    rw [hrun]
    have key : goodTrace (fun k => (st.p2p k).isSome) acts ∧
        activeAfter (fun k => (st.p2p k).isSome) acts = fun k => (st'.p2p k).isSome := by
      cases ev with
      | newApp pid al =>
        simp only [demuxStep] at hstep
        cases hstep
        exact ⟨trivial, rfl⟩
      | errorEv =>
        simp only [demuxStep] at hstep
        cases hstep
        exact ⟨trivial, rfl⟩
      | outgoingConnection pid fd addr =>
        simp only [demuxStep] at hstep
        rcases happ : st.apps pid with _ | al <;> rw [happ] at hstep
        · cases hstep
          exact ⟨trivial, rfl⟩
        · by_cases hport : addr.port = p2pPort
          · rw [if_pos hport] at hstep
            rcases hold : st.p2p (pid, fd) with _ | oldAddr <;> rw [hold] at hstep <;>
              dsimp only at hstep <;> cases hstep
            · refine ⟨⟨by simp [hold], trivial⟩, ?_⟩
              funext k
              by_cases hk : k = (pid, fd) <;> simp [activeAfter, hk]
            · refine ⟨?_, ?_⟩
              · exact ⟨by simp, trivial⟩
              · funext k
                by_cases hk : k = (pid, fd) <;> simp [activeAfter, hk]
          · rw [if_neg hport] at hstep
            cases hstep
            exact ⟨trivial, rfl⟩
      | incomingConnection pid fd addr =>
        simp only [demuxStep] at hstep
        rcases happ : st.apps pid with _ | al <;> rw [happ] at hstep
        · cases hstep
          exact ⟨trivial, rfl⟩
        · by_cases hport : addr.port = p2pPort ∨ 49152 ≤ addr.port
          · rw [if_pos hport] at hstep
            rcases hold : st.p2p (pid, fd) with _ | oldAddr <;> rw [hold] at hstep <;>
              dsimp only at hstep <;> cases hstep
            · refine ⟨⟨by simp [hold], trivial⟩, ?_⟩
              funext k
              by_cases hk : k = (pid, fd) <;> simp [activeAfter, hk]
            · refine ⟨?_, ?_⟩
              · exact ⟨by simp, trivial⟩
              · funext k
                by_cases hk : k = (pid, fd) <;> simp [activeAfter, hk]
          · rw [if_neg hport] at hstep
            cases hstep
            exact ⟨trivial, rfl⟩
      | disconnected pid fd =>
        simp only [demuxStep] at hstep
        rcases happ : st.apps pid with _ | al <;> rw [happ] at hstep
        · cases hstep
          exact ⟨trivial, rfl⟩
        · rcases hold : st.p2p (pid, fd) with _ | addr <;> rw [hold] at hstep <;>
            dsimp only at hstep <;> cases hstep
          · exact ⟨trivial, rfl⟩
          · refine ⟨trivial, ?_⟩
            funext k
            by_cases hk : k = (pid, fd) <;> simp [activeAfter, hk]
      | incomingData pid fd data =>
        simp only [demuxStep] at hstep
        rcases happ : st.apps pid with _ | al <;> rw [happ] at hstep
        · cases hstep
          exact ⟨trivial, rfl⟩
        · rcases hold : st.p2p (pid, fd) with _ | addr <;> rw [hold] at hstep <;>
            dsimp only at hstep <;> cases hstep
          · exact ⟨trivial, rfl⟩
          · exact ⟨trivial, rfl⟩
      | outgoingData pid fd data =>
        simp only [demuxStep] at hstep
        rcases happ : st.apps pid with _ | al <;> rw [happ] at hstep
        · cases hstep
          exact ⟨trivial, rfl⟩
        · rcases hold : st.p2p (pid, fd) with _ | addr <;> rw [hold] at hstep <;>
            dsimp only at hstep <;> cases hstep
          · exact ⟨trivial, rfl⟩
          · exact ⟨trivial, rfl⟩
      | random pid r =>
        simp only [demuxStep] at hstep
        rcases happ : st.apps pid with _ | al <;> rw [happ] at hstep <;>
          dsimp only at hstep <;> cases hstep
        · exact ⟨trivial, rfl⟩
        · exact ⟨trivial, rfl⟩
    refine goodTrace_append acts _ _ key.1 ?_
    rw [key.2]
    exact ih st'

/-- C4: over any event sequence, the demultiplexer delivers at most one
active `on_connect` per `(pid, fd)` without an intervening `on_disconnect`
(the trace respects the alternation discipline); and when a connection
event arrives for a key already registered, the synthesized disconnect —
carrying the prior address — is delivered immediately before the new
`on_connect`. -/
theorem demux_connect_alternation :
    (∀ events : List DemuxEvent,
      goodTrace (fun _ => false) (demuxRun demuxInit events).2) ∧
    (∀ (st : DemuxState) (al : Bytes) (pid fd : Nat) (addr oldAddr : SockAddrM),
      st.apps pid = some al → st.p2p (pid, fd) = some oldAddr → addr.port = p2pPort →
      (demuxStep st (.outgoingConnection pid fd addr)).2 =
        [.onDisconnect pid fd oldAddr, .onConnect false pid fd addr] ∧
      (demuxStep st (.incomingConnection pid fd addr)).2 =
        [.onDisconnect pid fd oldAddr, .onConnect true pid fd addr]) := by
  constructor
  · intro events
    exact demuxRun_goodTrace events demuxInit
  · intro st al pid fd addr oldAddr happ hold hport
    constructor
    · simp [demuxStep, happ, hport, hold]
    · simp [demuxStep, happ, hold, hport]

/-- Witness for `demux_connect_alternation` at a concrete state with a
registered key. -/
theorem demux_connect_alternation_witness :
    (demuxStep (demuxRun demuxInit
        [.newApp 1 [97], .outgoingConnection 1 7 ⟨1, 8302⟩]).1
      (.outgoingConnection 1 7 ⟨2, 8302⟩)).2 =
      [.onDisconnect 1 7 ⟨1, 8302⟩, .onConnect false 1 7 ⟨2, 8302⟩] :=
  (demux_connect_alternation.2 _ [97] 1 7 ⟨2, 8302⟩ ⟨1, 8302⟩ rfl rfl rfl).1

/-- C9 counterexample: the randomness queue is not alias-scoped — pushing
under two different aliases produces identical recorder states, so samples
of distinct aliases cannot be kept apart. -/
theorem randomness_alias_counterexample :
    onRandomness ⟨[]⟩ [97] (List.replicate 32 7) =
      onRandomness ⟨[]⟩ [98] (List.replicate 32 7) ∧
    ([97] : Bytes) ≠ [98] :=
  ⟨rfl, by decide⟩

/-- C9 (amended): `on_randomness` pushes the sample onto the single queue
shared by all aliases (the alias only gets logged), and iteration yields
samples newest first. -/
theorem randomness_single_queue_newest_first (cx : CxM) (al b : Bytes) :
    onRandomness cx al b = pushRandomness cx b ∧
    iterRand (pushRandomness cx b) = b :: iterRand cx :=
  ⟨rfl, by simp [iterRand, pushRandomness]⟩

/-- C8: whenever an iteration of `RingBuffer::read` consumes a record, the
length is the low 32 bits of the header with the `DISCARD` bit cleared, the
local position advances by exactly `8 + align8 length` (so it never
decreases), and the new position is release-stored to the shared consumer
position. -/
theorem rb_read_step_advance (st : RbConsumer) (prodPos header64 : Nat)
    (d : Bool) (len : Nat) (st' : RbConsumer)
    (h : rbReadStep st prodPos header64 = .consumed d len st') :
    len = header64 % 2 ^ 32 &&& (2 ^ 64 - 1 - 2 ^ 30) ∧
    st'.consumerPos = st.consumerPos + 8 + align8 len ∧
    st'.sharedPos = st'.consumerPos ∧
    st.consumerPos ≤ st'.consumerPos ∧
    st'.mask = st.mask := by
  simp only [rbReadStep] at h
  split_ifs at h <;>
  · cases h
    refine ⟨rfl, rfl, rfl, ?_, rfl⟩
    dsimp only
    omega

/-- Witness for `rb_read_step_advance`: a 4 KiB ring, one 3-byte record. -/
theorem rb_read_step_advance_witness :
    3 = 3 % 2 ^ 32 &&& (2 ^ 64 - 1 - 2 ^ 30) ∧
    (⟨4095, 16, 16, 0⟩ : RbConsumer).consumerPos = (⟨4095, 0, 0, 0⟩ : RbConsumer).consumerPos + 8 + align8 3 ∧
    (⟨4095, 16, 16, 0⟩ : RbConsumer).sharedPos = (⟨4095, 16, 16, 0⟩ : RbConsumer).consumerPos ∧
    (⟨4095, 0, 0, 0⟩ : RbConsumer).consumerPos ≤ (⟨4095, 16, 16, 0⟩ : RbConsumer).consumerPos ∧
    (⟨4095, 16, 16, 0⟩ : RbConsumer).mask = (⟨4095, 0, 0, 0⟩ : RbConsumer).mask :=
  rb_read_step_advance ⟨4095, 0, 0, 0⟩ 16 3 false 3 ⟨4095, 16, 16, 0⟩ (by decide)

/-- C7: a write/sendto (or read/recvfrom) exit whose socket id is absent
from the live-socket set emits no event at all, whatever the return value,
and leaves the set unchanged. -/
theorem untracked_socket_silent (conns : Nat → Bool) (family : Option Nat)
    (pid fd : Nat) (ret : Int) (h : conns (sockId fd pid) = false) :
    onRet conns family pid ret (.write fd) = (conns, none) ∧
    onRet conns family pid ret (.send fd) = (conns, none) ∧
    onRet conns family pid ret (.read fd) = (conns, none) ∧
    onRet conns family pid ret (.recv fd) = (conns, none) := by
  by_cases hr : ret = -11 <;>
    refine ⟨?_, ?_, ?_, ?_⟩ <;> simp [onRet, hr, h]

/-- Witness for `untracked_socket_silent`: empty live-socket set. -/
theorem untracked_socket_silent_witness :
    onRet (fun _ => false) none 2 7 (.write 1) = ((fun _ => false), none) ∧
    onRet (fun _ => false) none 2 7 (.send 1) = ((fun _ => false), none) ∧
    onRet (fun _ => false) none 2 7 (.read 1) = ((fun _ => false), none) ∧
    onRet (fun _ => false) none 2 7 (.recv 1) = ((fun _ => false), none) :=
  untracked_socket_silent (fun _ => false) none 2 1 7 rfl

/-- C6 counterexample: a `connect` exit returning `EAGAIN` (−11) — a
negative value other than `EINPROGRESS` — emits no event at all and does
not insert the socket id, where the claim expects an error event for every
other negative return. -/
theorem connect_eagain_counterexample :
    ((-11 : Int) < 0) ∧ ((-11 : Int) ≠ -115) ∧
    (onRet (fun _ => false) (some 2) 5 (-11) (.connect 7 0 16)).2 = none ∧
    (onRet (fun _ => false) (some 2) 5 (-11) (.connect 7 0 16)).1 (sockId 7 5) = false :=
  ⟨by decide, by decide, rfl, rfl⟩

/-- C6 (amended): on a `connect` exit with a valid `AF_INET`/`AF_INET6`
address, `EINPROGRESS` (−115) is treated as success — the socket id
`(fd << 32) + pid` is inserted and a `Connect` event with `size = addr_len`
is emitted, so a subsequent non-`EAGAIN` write on that fd is reported;
every other negative return except `EAGAIN` (−11) emits an error event and
does not insert the socket id; `EAGAIN` emits nothing and does not
insert. -/
theorem connect_einprogress_tracks (conns : Nat → Bool) (fam pid fd aptr alen : Nat)
    (hfam : fam = 2 ∨ fam = 10) :
    (onRet conns (some fam) pid (-115) (.connect fd aptr alen)).1 (sockId fd pid) = true ∧
    (onRet conns (some fam) pid (-115) (.connect fd aptr alen)).2 =
      some ⟨fd, pid, tagConnect, setOk alen⟩ ∧
    (∀ ret : Int, ret ≠ -11 →
      ((onRet (onRet conns (some fam) pid (-115) (.connect fd aptr alen)).1
          none pid ret (.write fd)).2).isSome = true) ∧
    (∀ ret : Int, ret < 0 → ret ≠ -115 → ret ≠ -11 →
      onRet conns (some fam) pid ret (.connect fd aptr alen) =
        (conns, some ⟨fd, pid, tagConnect, setErr ret⟩)) ∧
    onRet conns (some fam) pid (-11) (.connect fd aptr alen) = (conns, none) := by
  rcases hfam with rfl | rfl
  · have hmap : (onRet conns (some 2) pid (-115) (.connect fd aptr alen)).1
        = fun s => if s = sockId fd pid then true else conns s := rfl
    refine ⟨?_, rfl, ?_, ?_, rfl⟩
    · rw [hmap]
      simp
    · intro ret hret
      rw [hmap]
      simp only [onRet]
      rw [if_neg hret]
      simp
    · intro ret h1 h2 h3
      simp only [onRet]
      rw [if_neg h3]
      rw [if_neg (by simp), if_pos ⟨h1, h2⟩]
  · have hmap : (onRet conns (some 10) pid (-115) (.connect fd aptr alen)).1
        = fun s => if s = sockId fd pid then true else conns s := rfl
    refine ⟨?_, rfl, ?_, ?_, rfl⟩
    · rw [hmap]
      simp
    · intro ret hret
      rw [hmap]
      simp only [onRet]
      rw [if_neg hret]
      simp
    · intro ret h1 h2 h3
      simp only [onRet]
      rw [if_neg h3]
      rw [if_neg (by simp), if_pos ⟨h1, h2⟩]

/-- Witness for `connect_einprogress_tracks` with `AF_INET`. -/
theorem connect_einprogress_tracks_witness :
    (onRet (fun _ => false) (some 2) 1 (-115) (.connect 7 0 16)).1 (sockId 7 1) = true :=
  (connect_einprogress_tracks (fun _ => false) 2 1 7 0 16 (Or.inl rfl)).1

/-- C10: `from_rb_slice` is not total beyond `ErrorSliceTooShort`: slices of
length `32 + max(size, 0)` reach Rust panics — an undefined tag value, a
`Connect` sockaddr shorter than its family requires, a `Random` payload
that is not 32 bytes, and an `Alias` payload that is not UTF-8. -/
theorem parser_panics_beyond_tooShort :
    (badTagSlice.length = 32 ∧ sizeField badTagSlice < 0 ∧
      fromRbSlice badTagSlice = .panicked) ∧
    (badConnectSlice.length = 32 + 4 ∧ sizeField badConnectSlice = 4 ∧
      fromRbSlice badConnectSlice = .panicked) ∧
    (badRandomSlice.length = 32 + 1 ∧ sizeField badRandomSlice = 1 ∧
      fromRbSlice badRandomSlice = .panicked) ∧
    (badAliasSlice.length = 32 + 1 ∧ sizeField badAliasSlice = 1 ∧
      fromRbSlice badAliasSlice = .panicked) := by decide

/-- C5 counterexample: a 32-byte slice whose tag field is 10 panics in
`DataTag::from_u32(..).unwrap()` before the `size` field is examined — with
a negative size it does not return the claimed `Error` event, and with a
positive size (payload missing) it does not return the claimed
slice-too-short error. -/
theorem parser_bad_tag_counterexample :
    badTagSlice.length = 32 ∧ sizeField badTagSlice = -1 ∧
    fromRbSlice badTagSlice = .panicked ∧
    fromRbSlice badTagSlice ≠ .ok (some ⟨0, 0, 0, 0, .error 10 (-1)⟩) ∧
    badTagShortSlice.length = 32 ∧ sizeField badTagShortSlice = 5 ∧
    badTagShortSlice.length < 32 + (sizeField badTagShortSlice).toNat ∧
    fromRbSlice badTagShortSlice ≠ .tooShort := by decide

/-- C5 (amended): provided the header's tag field is a defined `DataTag`
value (< 10), `from_rb_slice` returns the slice-too-short error exactly
when the slice is shorter than the 32-byte header, or the size field is
non-negative and the slice is shorter than `32 + size`; and for any slice
of length ≥ 32 with a negative size field it returns the `Error(tag, size)`
event, built from the header fields alone. -/
theorem parser_tooShort_iff (slice : Bytes) (htag : le32At slice 24 < 10) :
    (fromRbSlice slice = .tooShort ↔
      slice.length < 32 ∨
        0 ≤ sizeField slice ∧ slice.length < 32 + (sizeField slice).toNat) ∧
    (32 ≤ slice.length → sizeField slice < 0 →
      fromRbSlice slice =
        .ok (some ⟨le32At slice 4, le32At slice 0, le64At slice 8, le64At slice 16,
          .error (le32At slice 24) (sizeField slice)⟩)) := by
  have htag' : ¬ 10 ≤ le32At slice 24 := by omega
  rcases Nat.lt_or_ge slice.length 32 with hlt | hge
  · constructor
    · constructor
      · intro _
        exact Or.inl hlt
      · intro _
        simp [fromRbSlice, hlt]
    · intro h32 _
      omega
  · have hnot : ¬ slice.length < 32 := by omega
    by_cases hneg : sizeField slice < 0
    · constructor
      · constructor
        · intro hts
          rw [show fromRbSlice slice =
              .ok (some ⟨le32At slice 4, le32At slice 0, le64At slice 8, le64At slice 16,
                .error (le32At slice 24) (sizeField slice)⟩) from by
            simp [fromRbSlice, hnot, htag', hneg]] at hts
          cases hts
        · intro h
          rcases h with h | ⟨hpos, _⟩
          · omega
          · omega
      · intro _ _
        simp [fromRbSlice, hnot, htag', hneg]
    · by_cases hshort : slice.length < 32 + (sizeField slice).toNat
      · constructor
        · constructor
          · intro _
            exact Or.inr ⟨by omega, hshort⟩
          · intro _
            simp [fromRbSlice, hnot, htag', hneg, hshort]
        · intro _ hneg'
          omega
      · constructor
        · constructor
          · intro hts
            exfalso
            have hne : fromRbSlice slice ≠ .tooShort := by
              simp only [fromRbSlice, if_neg hnot, if_neg htag', if_neg hneg,
                if_neg hshort]
              split_ifs <;> simp
            exact hne hts
          · intro h
            rcases h with h | ⟨_, h⟩
            · omega
            · omega
        · intro _ hneg'
          omega

/-- Witness for `parser_tooShort_iff`: a `Close` header with size −1 parses
to `Error(Close, −1)`; a `Write` header with size 2 and 1 payload byte is
too short. -/
theorem parser_tooShort_iff_witness :
    fromRbSlice (List.replicate 24 0 ++ [1, 0, 0, 0, 255, 255, 255, 255]) =
      .ok (some ⟨0, 0, 0, 0, .error 1 (-1)⟩) ∧
    (fromRbSlice (List.replicate 24 0 ++ [6, 0, 0, 0, 2, 0, 0, 0] ++ [104]) =
        .tooShort ↔ True) :=
  ⟨(parser_tooShort_iff _ (by decide)).2 (by decide) (by decide),
   by
    rw [(parser_tooShort_iff _ (by decide)).1]
    simp
    decide⟩

end MinaDebugger
